import Mathlib

/-!
Shallow embedding of the Clash of Commands prototype engine (src/game.py).

The Python engine mutates a single Game object in place; here every operation
is a pure function from the old state to the new state.  The six-entry zone
dictionary becomes a record with one field per zone id, and every call to
random.shuffle becomes an explicit parameter sh : List Card → List Card,
quantified in the theorems over all permutation-producing functions.
Integer-valued Python fields (morale, cp, card stats) are Int; counters and
ids that the code only ever sets to small non-negative values (turn, pid,
capacity) are Nat.  The hand index of deploy_troop_from_hand stays Int
because the Python code receives a possibly negative int and tests for it.
-/

namespace Clash

/-- Card kinds, mirroring class CardKind (game.py lines 12-15). -/
inductive CardKind where
  | TROOP
  | STRATEGEM
  | AMBUSH
deriving DecidableEq, Repr

/-- Zone identities, mirroring class ZoneId (game.py lines 18-24). -/
inductive ZoneId where
  | LEFT
  | CENTER
  | RIGHT
  | RESERVE
  | HQ
  | SUPPLY
deriving DecidableEq, Repr

/-- Combat stats of a troop card, mirroring class TroopStats (game.py lines 29-35). -/
structure TroopStats where
  str : Int
  arm : Int
  coh : Int
  speed : Int := 1
  max_ammo : Int := 0
deriving DecidableEq, Repr

/-- The card hierarchy Card / TroopCard / StrategemCard / AmbushCard
(game.py lines 38-68) as a sum type: each variant carries the shared
identity and text payload plus its variant-specific fields. -/
inductive Card where
  | troop (id name text : String) (stats : TroopStats)
  | strategem (id name text : String) (cost_cp : Int)
  | ambush (id name text : String) (cost_cp : Int) (trigger : String)
deriving DecidableEq, Repr

/-- The kind tag, which the Python dataclasses force in post-init. -/
def Card.kind : Card → CardKind
  | .troop _ _ _ _ => .TROOP
  | .strategem _ _ _ _ => .STRATEGEM
  | .ambush _ _ _ _ _ => .AMBUSH

/-- Whether a card is a troop card: the isinstance test of game.py line 307. -/
def Card.isTroop : Card → Bool
  | .troop _ _ _ _ => true
  | _ => false

/-- A troop on the battlefield, mirroring class Unit (game.py lines 71-79). -/
structure Unit where
  card : Card
  owner : Nat
  zone : ZoneId
  coh : Int
  ammo : Int
  attacked_this_turn : Bool := false
deriving DecidableEq, Repr

/-- Liveness predicate of a unit (game.py lines 93-94). -/
def Unit.is_alive (u : Unit) : Bool := u.coh > 0

/-- A battlefield zone, mirroring class Zone (game.py lines 97-104). -/
structure Zone where
  id : ZoneId
  capacity : Nat
  units : List Unit := []
deriving DecidableEq, Repr

/-- Zone.has_space (game.py lines 103-104). -/
def Zone.has_space (z : Zone) : Bool := z.units.length < z.capacity

/-- Per-player state, mirroring class PlayerState (game.py lines 107-114). -/
structure PlayerState where
  pid : Nat
  morale : Int := 25
  cp : Int := 0
  deck : List Card := []
  hand : List Card := []
  discard : List Card := []
deriving DecidableEq, Repr

/-- The fixed-key dictionary self.zones (game.py lines 124-131) as a record
with one field per zone id. -/
structure Zones where
  left : Zone
  center : Zone
  right : Zone
  reserve : Zone
  hq : Zone
  supply : Zone
deriving DecidableEq, Repr

/-- Dictionary lookup self.zones[zid]. -/
def Zones.get (zs : Zones) : ZoneId → Zone
  | .LEFT => zs.left
  | .CENTER => zs.center
  | .RIGHT => zs.right
  | .RESERVE => zs.reserve
  | .HQ => zs.hq
  | .SUPPLY => zs.supply

/-- Dictionary update self.zones[zid] = z. -/
def Zones.set (zs : Zones) (zid : ZoneId) (z : Zone) : Zones :=
  match zid with
  | .LEFT => { zs with left := z }
  | .CENTER => { zs with center := z }
  | .RIGHT => { zs with right := z }
  | .RESERVE => { zs with reserve := z }
  | .HQ => { zs with hq := z }
  | .SUPPLY => { zs with supply := z }

/-- Pointwise transformation of every zone, used for the loop over
self.zones.values() in start_phase (game.py lines 298-301). -/
def Zones.map (f : Zone → Zone) (zs : Zones) : Zones :=
  { left := f zs.left, center := f zs.center, right := f zs.right,
    reserve := f zs.reserve, hq := f zs.hq, supply := f zs.supply }

/-- The whole game state, mirroring class Game (game.py lines 119-146). -/
structure Game where
  turn : Nat
  active_pid : Nat
  zones : Zones
  p1 : PlayerState
  p2 : PlayerState
deriving DecidableEq, Repr

/-- The static adjacency mapping self.adj (game.py lines 133-140); fixed
topology data, never mutated and never consulted by the current operations. -/
def adj : ZoneId → List ZoneId
  | .HQ => [.RESERVE]
  | .SUPPLY => [.RESERVE]
  | .RESERVE => [.HQ, .SUPPLY, .LEFT, .CENTER, .RIGHT]
  | .LEFT => [.RESERVE, .CENTER]
  | .CENTER => [.RESERVE, .LEFT, .RIGHT]
  | .RIGHT => [.RESERVE, .CENTER]

/-- Game.other_pid (game.py lines 262-263). -/
def other_pid (pid : Nat) : Nat := if pid = 1 then 2 else 1

/-- Game.player (game.py lines 265-266). -/
def Game.player (g : Game) (pid : Nat) : PlayerState :=
  if pid = 1 then g.p1 else g.p2

/-- Writing back the player record that the Python methods mutate in place. -/
def Game.setPlayer (g : Game) (pid : Nat) (p : PlayerState) : Game :=
  if pid = 1 then { g with p1 := p } else { g with p2 := p }

/-- Game.zone (game.py lines 268-269). -/
def Game.zone (g : Game) (zid : ZoneId) : Zone := g.zones.get zid

/-- A shuffle strategy: the outcome of each random.shuffle call.  Theorems
assume IsPerm, i.e. that shuffling only permutes the list. -/
def IsPerm (sh : List Card → List Card) : Prop := ∀ l, List.Perm (sh l) l

/-- The reshuffle branch of Game.drawOnce (game.py lines 248-252): the
discard pile, randomly permuted, becomes the deck and the discard empties. -/
def reshuffle (sh : List Card → List Card) (p : PlayerState) : PlayerState :=
  { p with deck := sh p.discard, discard := [] }

/-- One iteration of the loop in Game.drawOnce (game.py lines 247-254):
reshuffle if the deck is empty, then pop the top (last) card of the deck,
if any, into the hand. -/
def drawOnce (sh : List Card → List Card) (p : PlayerState) : PlayerState :=
  let p' := if p.deck.isEmpty then reshuffle sh p else p
  match p'.deck.getLast? with
  | some c => { p' with deck := p'.deck.dropLast, hand := p'.hand ++ [c] }
  | none => p'

/-- The private method self.drawn from Game (game.py lines 246-254, the
method the source spells with a leading underscore): n iterations of
drawOnce. -/
def draw (sh : List Card → List Card) (n : Nat) (p : PlayerState) : PlayerState :=
  match n with
  | 0 => p
  | n + 1 => draw sh n (drawOnce sh p)

/-- Clearing the attacked flag of every unit the player owns in one zone:
the inner loop of start_phase (game.py lines 298-301). -/
def Zone.resetAttacks (pid : Nat) (z : Zone) : Zone :=
  { z with units := z.units.map fun u =>
      if u.owner = pid then { u with attacked_this_turn := false } else u }

/-- Game.start_phase (game.py lines 294-301): gain command points (capped
at 5), draw one card, clear the friendly attacked flags. -/
def start_phase (sh : List Card → List Card) (pid : Nat) (g : Game) : Game :=
  let p := g.player pid
  let p := { p with cp := min 5 (p.cp + 2) }
  let p := draw sh 1 p
  let g := g.setPlayer pid p
  { g with zones := g.zones.map (Zone.resetAttacks pid) }

/-- Game.deploy_troop_from_hand (game.py lines 303-323).  Returns the
boolean result paired with the (possibly unchanged) next state. -/
def deploy_troop_from_hand (pid : Nat) (hand_index : Int) (target_zone : ZoneId)
    (g : Game) : Bool × Game :=
  let p := g.player pid
  if hand_index < 0 ∨ (p.hand.length : Int) ≤ hand_index then (false, g)
  else
    match p.hand[hand_index.toNat]? with
    | none => (false, g)
    | some card =>
      match card with
      | .troop cid cname ctext stats =>
        let z := g.zone target_zone
        if z.has_space then
          let u : Unit :=
            { card := .troop cid cname ctext stats, owner := pid,
              zone := target_zone, coh := stats.coh, ammo := stats.max_ammo,
              attacked_this_turn := false }
          let z' := { z with units := z.units ++ [u] }
          let p' := { p with discard := p.discard ++ [card],
                             hand := p.hand.eraseIdx hand_index.toNat }
          (true, { g.setPlayer pid p' with zones := g.zones.set target_zone z' })
        else (false, g)
      | _ => (false, g)

/-- The turn-swap tail of Game.play_one_turn (game.py lines 353-356): the
active player toggles and the turn counter increments when control returns
to player 1. -/
def endTurn (g : Game) : Game :=
  let a := other_pid g.active_pid
  { g with active_pid := a, turn := if a = 1 then g.turn + 1 else g.turn }

/-- Game.game_over (game.py lines 358-363). -/
def game_over (g : Game) : Option Nat :=
  if g.p1.morale ≤ 0 then some 2
  else if g.p2.morale ≤ 0 then some 1
  else none

/-! ### The sample card catalog and game construction (game.py lines 120-258) -/

def marines : Card :=
  .troop "troop_marines" "Tactical Marines"
    "+1 STR if another Infantry is in zone (not implemented yet)."
    { str := 6, arm := 4, coh := 6, speed := 1, max_ammo := 0 }

def scouts : Card :=
  .troop "troop_scouts" "Scouts" "Ranged unit (ammo 2, range 1 later)."
    { str := 4, arm := 2, coh := 4, speed := 1, max_ammo := 2 }

def cavalry : Card :=
  .troop "troop_cavalry" "Assault Cavalry" "Fast movers."
    { str := 5, arm := 3, coh := 5, speed := 2, max_ammo := 0 }

def heavy : Card :=
  .troop "troop_heavy" "Heavy Weapons Team" "Artillery-ish (ammo 2 later)."
    { str := 7, arm := 2, coh := 4, speed := 1, max_ammo := 2 }

def elite : Card :=
  .troop "troop_elite" "Elite Veterans" "Hard hitters."
    { str := 7, arm := 4, coh := 6, speed := 1, max_ammo := 0 }

def suppression : Card :=
  .strategem "strat_suppression" "Suppressive Fire"
    "Choose a zone; enemy cannot move next turn (not implemented yet)." 2

def march : Card :=
  .strategem "strat_march" "Forced March"
    "One troop gets +1 move this turn (not implemented yet)." 1

def dig_in : Card :=
  .strategem "strat_dig_in" "Dig In"
    "Target zone gets +1 ARM for your troops this turn (not implemented yet)." 1

def killzone : Card :=
  .ambush "amb_killzone" "Prepared Killzone"
    "When enemy enters zone: deal 3 damage to one troop (not implemented yet)." 1
    "ON_ENTER"

def booby : Card :=
  .ambush "amb_booby" "Booby Traps"
    "When enemy enters zone: deal 2 damage (not implemented yet)." 0 "ON_ENTER"

/-- base_deck (game.py lines 230-238). -/
def base_deck : List Card :=
  [marines, marines, scouts, scouts, cavalry, cavalry, heavy, heavy,
   elite, elite, suppression, march, dig_in, killzone, booby]

/-- The six freshly built zones of Game (game.py lines 124-131). -/
def initZones : Zones :=
  { left := { id := .LEFT, capacity := 3 },
    center := { id := .CENTER, capacity := 3 },
    right := { id := .RIGHT, capacity := 3 },
    reserve := { id := .RESERVE, capacity := 4 },
    hq := { id := .HQ, capacity := 2 },
    supply := { id := .SUPPLY, capacity := 2 } }

/-- Game construction (game.py lines 120-146 with the setup helpers at
150-258): turn 1, player 1 active, empty zones, each deck two shuffled
copies of the base deck, then five cards drawn to each hand.  sh1 and sh2
stand for the random.shuffle outcomes for players 1 and 2. -/
def Game.init (sh1 sh2 : List Card → List Card) : Game :=
  let g : Game :=
    { turn := 1, active_pid := 1, zones := initZones,
      p1 := { pid := 1, deck := sh1 (base_deck ++ base_deck) },
      p2 := { pid := 2, deck := sh2 (base_deck ++ base_deck) } }
  let g := g.setPlayer 1 (draw sh1 5 (g.player 1))
  g.setPlayer 2 (draw sh2 5 (g.player 2))

/-! ### Helper lemmas about the embedded operations -/

/-- drawOnce never touches pid, morale or cp. -/
theorem drawOnce_scalar (sh : List Card → List Card) (p : PlayerState) :
    (drawOnce sh p).pid = p.pid ∧ (drawOnce sh p).morale = p.morale ∧
    (drawOnce sh p).cp = p.cp := by
  unfold drawOnce reshuffle
  split <;> dsimp only <;> split <;> simp

/-- draw never touches pid, morale or cp. -/
theorem draw_scalar (sh : List Card → List Card) (n : Nat) (p : PlayerState) :
    (draw sh n p).pid = p.pid ∧ (draw sh n p).morale = p.morale ∧
    (draw sh n p).cp = p.cp := by
  induction n generalizing p with
  | zero => exact ⟨rfl, rfl, rfl⟩
  | succ n ih =>
    have h := drawOnce_scalar sh p
    have h' := ih (drawOnce sh p)
    rw [draw]
    exact ⟨h'.1.trans h.1, h'.2.1.trans h.2.1, h'.2.2.trans h.2.2⟩

theorem setPlayer_active (g : Game) (pid : Nat) (p : PlayerState) :
    (g.setPlayer pid p).active_pid = g.active_pid := by
  unfold Game.setPlayer; split <;> rfl

theorem setPlayer_turn (g : Game) (pid : Nat) (p : PlayerState) :
    (g.setPlayer pid p).turn = g.turn := by
  unfold Game.setPlayer; split <;> rfl

theorem player_setPlayer (g : Game) (pid : Nat) (p : PlayerState) :
    (g.setPlayer pid p).player pid = p := by
  unfold Game.setPlayer Game.player; split <;> simp_all

/-- The state of the acting player right after start_phase: the command
point gain followed by the one-card draw. -/
theorem start_phase_player (sh : List Card → List Card) (pid : Nat) (g : Game) :
    (start_phase sh pid g).player pid
      = draw sh 1 { g.player pid with cp := min 5 ((g.player pid).cp + 2) } := by
  unfold start_phase Game.setPlayer Game.player
  dsimp only
  split <;> simp_all

/-- A fully dead-simple concrete state used to instantiate the theorems:
both players have the given morales, no cards anywhere, empty zones. -/
def deadState (m1 m2 : Int) : Game :=
  { turn := 1, active_pid := 1, zones := initZones,
    p1 := { pid := 1, morale := m1 }, p2 := { pid := 2, morale := m2 } }

/-- A concrete state whose first player holds one troop card. -/
def gDemo : Game :=
  { turn := 1, active_pid := 1, zones := initZones,
    p1 := { pid := 1, hand := [marines] }, p2 := { pid := 2 } }

/-- Complete case analysis of deploy_troop_from_hand: either one of the
three guards fails and the state is returned untouched with result false,
or the index is in range on a troop card, the zone has space, and the
successor state is given explicitly. -/
theorem deploy_eq_cases (pid : Nat) (i : Int) (tz : ZoneId) (g : Game) :
    (deploy_troop_from_hand pid i tz g = (false, g) ∧
      (i < 0 ∨ ((g.player pid).hand.length : Int) ≤ i ∨
       (∀ c, (g.player pid).hand[i.toNat]? = some c → c.isTroop = false) ∨
       (g.zone tz).has_space = false)) ∨
    (∃ cid cname ctext stats,
      0 ≤ i ∧ i < ((g.player pid).hand.length : Int) ∧
      (g.player pid).hand[i.toNat]? = some (.troop cid cname ctext stats) ∧
      (g.zone tz).has_space = true ∧
      deploy_troop_from_hand pid i tz g =
        (true,
         { g.setPlayer pid
             { g.player pid with
               discard := (g.player pid).discard ++ [Card.troop cid cname ctext stats],
               hand := (g.player pid).hand.eraseIdx i.toNat } with
           zones := g.zones.set tz
             { g.zone tz with
               units := (g.zone tz).units ++
                 [{ card := Card.troop cid cname ctext stats, owner := pid, zone := tz,
                    coh := stats.coh, ammo := stats.max_ammo,
                    attacked_this_turn := false }] } })) := by
  unfold deploy_troop_from_hand
  dsimp only
  split
  · rename_i hidx
    exact Or.inl ⟨rfl, by omega⟩
  · rename_i hidx
    push_neg at hidx
    split
    · rename_i hnone
      exfalso
      have : i.toNat < (g.player pid).hand.length := by omega
      rw [List.getElem?_eq_none_iff] at hnone
      omega
    · rename_i card hsome
      split
      · rename_i cid cname ctext stats
        split
        · rename_i hsp
          refine Or.inr ⟨cid, cname, ctext, stats, hidx.1, hidx.2, hsome, hsp, rfl⟩
        · rename_i hsp
          refine Or.inl ⟨rfl, Or.inr (Or.inr (Or.inr ?_))⟩
          simpa using hsp
      · rename_i hnott
        refine Or.inl ⟨rfl, Or.inr (Or.inr (Or.inl ?_))⟩
        intro c hc
        rw [hsome] at hc
        injection hc with hc
        subst hc
        cases card with
        | troop a b c d => exact absurd rfl (hnott a b c d)
        | strategem a b c d => rfl
        | ambush a b c d e => rfl

theorem get_set_self (zs : Zones) (zid : ZoneId) (z : Zone) :
    (zs.set zid z).get zid = z := by
  cases zid <;> rfl

theorem player_zones_update (g : Game) (zs : Zones) (pid : Nat) :
    (Game.player { g with zones := zs } pid) = g.player pid := rfl

theorem endTurn_active1 (g : Game) (h : g.active_pid = 1) :
    (endTurn g).active_pid = 2 ∧ (endTurn g).turn = g.turn := by
  unfold endTurn other_pid
  simp [h]

theorem endTurn_active2 (g : Game) (h : g.active_pid = 2) :
    (endTurn g).active_pid = 1 ∧ (endTurn g).turn = g.turn + 1 := by
  unfold endTurn other_pid
  simp [h]

theorem init_active (sh1 sh2 : List Card → List Card) :
    (Game.init sh1 sh2).active_pid = 1 ∧ (Game.init sh1 sh2).turn = 1 := by
  unfold Game.init
  dsimp only
  rw [setPlayer_active, setPlayer_active, setPlayer_turn, setPlayer_turn]
  exact ⟨rfl, rfl⟩
/-! ### Zone bookkeeping lemmas -/

/-- The capacity invariant of the spec: no zone ever holds more units than
its capacity. -/
def zoneInv (g : Game) : Prop :=
  ∀ zid, (g.zone zid).units.length ≤ (g.zone zid).capacity

theorem setPlayer_zones (g : Game) (pid : Nat) (p : PlayerState) :
    (g.setPlayer pid p).zones = g.zones := by
  unfold Game.setPlayer; split <;> rfl

theorem get_map (f : Zone → Zone) (zs : Zones) (zid : ZoneId) :
    (Zones.map f zs).get zid = f (zs.get zid) := by cases zid <;> rfl

theorem get_set (zs : Zones) (z1 z2 : ZoneId) (z : Zone) :
    (zs.set z1 z).get z2 = if z2 = z1 then z else zs.get z2 := by
  cases z1 <;> cases z2 <;> simp [Zones.set, Zones.get]

theorem start_phase_zones (sh : List Card → List Card) (pid : Nat) (g : Game) :
    (start_phase sh pid g).zones = g.zones.map (Zone.resetAttacks pid) := by
  unfold start_phase
  dsimp only
  rw [setPlayer_zones]

theorem init_zones (sh1 sh2 : List Card → List Card) :
    (Game.init sh1 sh2).zones = initZones := by
  unfold Game.init; dsimp only; rw [setPlayer_zones, setPlayer_zones]

theorem zone_setPlayer (g : Game) (pid : Nat) (p : PlayerState) (zid : ZoneId) :
    (g.setPlayer pid p).zone zid = g.zone zid := by
  unfold Game.zone; rw [setPlayer_zones]

theorem zone_start_phase (sh : List Card → List Card) (pid : Nat) (g : Game) (zid : ZoneId) :
    (start_phase sh pid g).zone zid = Zone.resetAttacks pid (g.zone zid) := by
  unfold Game.zone; rw [start_phase_zones, get_map]

/-! ### Card conservation lemmas -/

/-- The multiset of cards a player owns across deck, hand and discard. -/
def ownedCards (p : PlayerState) : Multiset Card :=
  (↑(p.deck ++ p.hand ++ p.discard) : Multiset Card)

theorem perm_cons_eraseIdx (l : List Card) (i : Nat) (c : Card)
    (h : l[i]? = some c) : List.Perm (c :: l.eraseIdx i) l := by
  induction l generalizing i with
  | nil => simp at h
  | cons a t ih =>
    cases i with
    | zero =>
      simp at h
      subst h
      simp [List.eraseIdx]
    | succ n =>
      simp at h
      exact (List.Perm.swap a c _).trans (List.Perm.cons a (ih n h))

theorem drawOnce_owned (sh : List Card → List Card) (hsh : IsPerm sh)
    (p : PlayerState) : ownedCards (drawOnce sh p) = ownedCards p := by
  have hcoe : ∀ l, (↑(sh l) : Multiset Card) = ↑l :=
    fun l => Multiset.coe_eq_coe.mpr (hsh l)
  unfold drawOnce reshuffle
  dsimp only
  by_cases hdeck : p.deck.isEmpty = true
  · rw [if_pos hdeck]
    have hdeckeq : p.deck = [] := by simpa using hdeck
    dsimp only
    split
    · rename_i c hlast
      have key : (↑((sh p.discard).dropLast) : Multiset Card) + {c} = ↑p.discard := by
        have h1 : (sh p.discard).dropLast ++ [c] = sh p.discard :=
          List.dropLast_append_getLast? c (Option.mem_def.mpr hlast)
        calc (↑((sh p.discard).dropLast) : Multiset Card) + {c}
            = ↑((sh p.discard).dropLast ++ [c]) := by
              rw [← Multiset.coe_singleton, Multiset.coe_add]
          _ = ↑(sh p.discard) := by rw [h1]
          _ = ↑p.discard := hcoe _
      unfold ownedCards
      dsimp only
      rw [hdeckeq]
      simp only [← Multiset.coe_add]
      rw [← key]
      simp only [← Multiset.coe_singleton]
      abel
    · unfold ownedCards
      dsimp only
      rw [hdeckeq]
      simp only [← Multiset.coe_add]
      rw [hcoe]
      simp only [Multiset.coe_nil]
      abel
  · rw [if_neg hdeck]
    split
    · rename_i c hlast
      have key : (↑(p.deck.dropLast) : Multiset Card) + {c} = ↑p.deck := by
        have h1 : p.deck.dropLast ++ [c] = p.deck :=
          List.dropLast_append_getLast? c (Option.mem_def.mpr hlast)
        rw [← Multiset.coe_singleton, Multiset.coe_add, h1]
      unfold ownedCards
      dsimp only
      simp only [← Multiset.coe_add]
      rw [← key]
      simp only [← Multiset.coe_singleton]
      abel
    · rfl

theorem draw_owned (sh : List Card → List Card) (hsh : IsPerm sh) (n : Nat)
    (p : PlayerState) : ownedCards (draw sh n p) = ownedCards p := by
  induction n generalizing p with
  | zero => rfl
  | succ n ih =>
    rw [draw]
    exact (ih (drawOnce sh p)).trans (drawOnce_owned sh hsh p)

theorem owned_deploy_update (p : PlayerState) (i : Nat) (c : Card)
    (h : p.hand[i]? = some c) :
    ownedCards { p with discard := p.discard ++ [c], hand := p.hand.eraseIdx i }
      = ownedCards p := by
  have hp : (↑(c :: p.hand.eraseIdx i) : Multiset Card) = ↑p.hand :=
    Multiset.coe_eq_coe.mpr (perm_cons_eraseIdx _ _ _ h)
  unfold ownedCards
  dsimp only
  simp only [← Multiset.coe_add]
  rw [← hp]
  simp only [← Multiset.cons_coe, ← Multiset.singleton_add, Multiset.coe_nil, add_zero]
  abel

theorem start_phase_owned (sh : List Card → List Card) (hsh : IsPerm sh)
    (pid : Nat) (g : Game) :
    ownedCards (start_phase sh pid g).p1 = ownedCards g.p1 ∧
    ownedCards (start_phase sh pid g).p2 = ownedCards g.p2 := by
  unfold start_phase Game.setPlayer Game.player
  dsimp only
  split
  · exact ⟨(draw_owned sh hsh 1 _), rfl⟩
  · exact ⟨rfl, (draw_owned sh hsh 1 _)⟩

theorem deploy_owned (pid : Nat) (i : Int) (tz : ZoneId) (g : Game) :
    ownedCards (deploy_troop_from_hand pid i tz g).2.p1 = ownedCards g.p1 ∧
    ownedCards (deploy_troop_from_hand pid i tz g).2.p2 = ownedCards g.p2 := by
  rcases deploy_eq_cases pid i tz g with ⟨heq, _⟩ |
    ⟨cid, cname, ctext, stats, _, _, hsome, _, heq⟩
  · rw [heq]; exact ⟨rfl, rfl⟩
  · rw [heq]
    unfold Game.setPlayer Game.player at *
    dsimp only
    split
    · rename_i hpid
      rw [if_pos hpid] at hsome
      exact ⟨owned_deploy_update _ _ _ hsome, rfl⟩
    · rename_i hpid
      rw [if_neg hpid] at hsome
      exact ⟨rfl, owned_deploy_update _ _ _ hsome⟩
/-! ### Draw-shape lemmas -/

theorem drawOnce_empty (sh : List Card → List Card) (hsh : IsPerm sh)
    (p : PlayerState) (hdeck : p.deck = []) (hdisc : p.discard = []) :
    drawOnce sh p = p := by
  have hshnil : sh [] = [] := List.Perm.eq_nil (hsh [])
  unfold drawOnce reshuffle
  dsimp only
  rw [if_pos (by simp [hdeck])]
  rw [hdisc, hshnil]
  cases p
  simp_all

theorem drawOnce_pop (sh : List Card → List Card) (p : PlayerState)
    (l : List Card) (c : Card) (hdeck : p.deck = l ++ [c]) :
    drawOnce sh p = { p with deck := l, hand := p.hand ++ [c] } := by
  unfold drawOnce reshuffle
  dsimp only
  rw [if_neg (by simp [hdeck])]
  rw [hdeck, List.getLast?_concat]
  dsimp only
  rw [List.dropLast_concat]

theorem drawOnce_hand (sh : List Card → List Card) (p : PlayerState) :
    ∃ d, (drawOnce sh p).hand = p.hand ++ d ∧ d.length ≤ 1 := by
  unfold drawOnce reshuffle
  dsimp only
  by_cases hdeck : p.deck.isEmpty = true
  · rw [if_pos hdeck]
    dsimp only
    split
    · rename_i c _
      exact ⟨[c], rfl, by simp⟩
    · exact ⟨[], by simp, by simp⟩
  · rw [if_neg hdeck]
    split
    · rename_i c _
      exact ⟨[c], rfl, by simp⟩
    · exact ⟨[], by simp, by simp⟩

/-! ### The reachability relation and morale lemmas -/

/-- One engine operation, as the spec's state machine exposes them: a start
phase for some player, a raw draw, a deploy attempt (successful or not), or
the end-of-turn swap.  The shuffle outcome of each operation is arbitrary. -/
inductive Step : Game → Game → Prop where
  | start (sh : List Card → List Card) (pid : Nat) (g : Game) :
      Step g (start_phase sh pid g)
  | drawStep (sh : List Card → List Card) (n pid : Nat) (g : Game) :
      Step g (g.setPlayer pid (draw sh n (g.player pid)))
  | deployStep (pid : Nat) (i : Int) (tz : ZoneId) (g : Game) :
      Step g (deploy_troop_from_hand pid i tz g).2
  | swap (g : Game) : Step g (endTurn g)

/-- States reachable from a given state by engine operations. -/
def Reachable (g0 g : Game) : Prop := Relation.ReflTransGen Step g0 g

theorem setPlayer_morale (g : Game) (pid : Nat) (p : PlayerState)
    (h : p.morale = (g.player pid).morale) :
    (g.setPlayer pid p).p1.morale = g.p1.morale ∧
    (g.setPlayer pid p).p2.morale = g.p2.morale := by
  unfold Game.player at h
  unfold Game.setPlayer
  by_cases hpid : pid = 1 <;> simp [hpid] at h ⊢ <;> exact h

theorem start_phase_morale (sh : List Card → List Card) (pid : Nat) (g : Game) :
    (start_phase sh pid g).p1.morale = g.p1.morale ∧
    (start_phase sh pid g).p2.morale = g.p2.morale := by
  unfold start_phase
  dsimp only
  exact setPlayer_morale g pid _ ((draw_scalar sh 1 _).2.1)

theorem deploy_morale (pid : Nat) (i : Int) (tz : ZoneId) (g : Game) :
    (deploy_troop_from_hand pid i tz g).2.p1.morale = g.p1.morale ∧
    (deploy_troop_from_hand pid i tz g).2.p2.morale = g.p2.morale := by
  rcases deploy_eq_cases pid i tz g with ⟨heq, _⟩ |
    ⟨cid, cname, ctext, stats, _, _, _, _, heq⟩
  · rw [heq]; exact ⟨rfl, rfl⟩
  · rw [heq]
    exact setPlayer_morale g pid _ rfl

theorem step_morale (g g' : Game) (h : Step g g') :
    g'.p1.morale = g.p1.morale ∧ g'.p2.morale = g.p2.morale := by
  cases h with
  | start sh pid g => exact start_phase_morale sh pid g
  | drawStep sh n pid g => exact setPlayer_morale g pid _ ((draw_scalar sh n _).2.1)
  | deployStep pid i tz g => exact deploy_morale pid i tz g
  | swap g => exact ⟨rfl, rfl⟩

theorem setPlayer_draw_morale (sh : List Card → List Card) (n pid : Nat) (g : Game) :
    (g.setPlayer pid (draw sh n (g.player pid))).p1.morale = g.p1.morale ∧
    (g.setPlayer pid (draw sh n (g.player pid))).p2.morale = g.p2.morale :=
  setPlayer_morale g pid _ ((draw_scalar sh n _).2.1)

theorem init_morale (sh1 sh2 : List Card → List Card) :
    (Game.init sh1 sh2).p1.morale = 25 ∧ (Game.init sh1 sh2).p2.morale = 25 := by
  unfold Game.init
  dsimp only
  constructor
  · exact ((setPlayer_draw_morale sh2 5 2 _).1).trans ((setPlayer_draw_morale sh1 5 1 _).1)
  · exact ((setPlayer_draw_morale sh2 5 2 _).2).trans ((setPlayer_draw_morale sh1 5 1 _).2)
/-! ### The claims -/

/-- C1 counterexample: in the concrete state where both players sit at
morale 0, game_over does not report player 1; the first-checked condition
(player 1's morale at or below zero) awards the win to player 2. -/
theorem game_over_both_zero_ne_player1 :
    (deadState 0 0).p1.morale ≤ 0 ∧ (deadState 0 0).p2.morale ≤ 0 ∧
    game_over (deadState 0 0) ≠ some 1 := by decide

/-- C1 (amended): for every game state in which both players' morale is at
or below zero simultaneously, game_over deterministically reports player 2
as the winner: player 1's morale is checked first, and that check declares
player 1's opponent the winner. -/
theorem game_over_both_zero_player2 (g : Game)
    (h1 : g.p1.morale ≤ 0) (h2 : g.p2.morale ≤ 0) :
    game_over g = some 2 := by
  unfold game_over
  simp [h1]

/-- C1 witness: the amended claim evaluated at the both-dead state. -/
theorem game_over_both_zero_player2_witness :
    (deadState 0 0).p1.morale ≤ 0 ∧ (deadState 0 0).p2.morale ≤ 0 ∧
    game_over (deadState 0 0) = some 2 :=
  ⟨by decide, by decide,
   game_over_both_zero_player2 (deadState 0 0) (by decide) (by decide)⟩

/-- C2: whenever game_over names a winner, the winner is one of the two
player ids and the winner's opponent has morale at or below zero; it
returns none exactly when both morales are positive.  In the embedding
game_over is a pure function of the state (its Python original only reads
the two morale fields), so it cannot mutate any component. -/
theorem game_over_winner_spec (g : Game) :
    (∀ w, game_over g = some w →
        (w = 1 ∨ w = 2) ∧ (g.player (other_pid w)).morale ≤ 0) ∧
    (game_over g = none ↔ 0 < g.p1.morale ∧ 0 < g.p2.morale) := by
  constructor
  · intro w hw
    unfold game_over at hw
    split_ifs at hw with h1 h2
    · injection hw with hw
      subst hw
      exact ⟨Or.inr rfl, by simpa [other_pid, Game.player] using h1⟩
    · injection hw with hw
      subst hw
      exact ⟨Or.inl rfl, by simpa [other_pid, Game.player] using h2⟩
  · unfold game_over
    split_ifs with h1 h2 <;> simp <;> omega

/-- C2 witness: in a state where only player 2 is at zero morale, the
reported winner 1 indeed has an opponent at morale zero. -/
theorem game_over_winner_spec_witness :
    ((deadState 25 0).player (other_pid 1)).morale ≤ 0 :=
  ((game_over_winner_spec (deadState 25 0)).1 1 (by decide)).2

/-- C3: zone occupancy never exceeds capacity.  A fresh game satisfies the
invariant, and every engine operation (raw draw, start phase, deploy)
preserves it; has_space holds exactly when the occupant count is below
capacity, and deploy returns failure without touching the state when the
target zone has no space, so a unit is only ever appended when has_space
held. -/
theorem zone_capacity_spec :
    (∀ sh1 sh2, zoneInv (Game.init sh1 sh2)) ∧
    (∀ sh (n pid : Nat) (g : Game), zoneInv g →
        zoneInv (g.setPlayer pid (draw sh n (g.player pid)))) ∧
    (∀ sh (pid : Nat) (g : Game), zoneInv g → zoneInv (start_phase sh pid g)) ∧
    (∀ (pid : Nat) (i : Int) (tz : ZoneId) (g : Game), zoneInv g →
        zoneInv (deploy_troop_from_hand pid i tz g).2) ∧
    (∀ z : Zone, z.has_space = true ↔ z.units.length < z.capacity) ∧
    (∀ (pid : Nat) (i : Int) (tz : ZoneId) (g : Game),
        (g.zone tz).has_space = false →
        deploy_troop_from_hand pid i tz g = (false, g)) := by
  have hspace : ∀ z : Zone, z.has_space = true ↔ z.units.length < z.capacity := by
    intro z; simp [Zone.has_space]
  refine ⟨?_, ?_, ?_, ?_, hspace, ?_⟩
  · intro sh1 sh2 zid
    rw [show (Game.init sh1 sh2).zone zid = initZones.get zid by
      unfold Game.zone; rw [init_zones]]
    cases zid <;> simp [Zones.get, initZones]
  · intro sh n pid g h zid
    rw [zone_setPlayer]
    exact h zid
  · intro sh pid g h zid
    rw [zone_start_phase]
    simpa [Zone.resetAttacks] using h zid
  · intro pid i tz g h zid
    rcases deploy_eq_cases pid i tz g with ⟨heq, _⟩ |
      ⟨cid, cname, ctext, stats, _, _, _, hsp, heq⟩
    · rw [heq]; exact h zid
    · rw [heq]
      unfold Game.zone
      dsimp only
      rw [get_set]
      split
      · dsimp only
        rw [List.length_append]
        have hlt := (hspace _).mp hsp
        unfold Game.zone at hlt
        simpa using hlt
      · exact h zid
  · intro pid i tz g hfull
    rcases deploy_eq_cases pid i tz g with ⟨heq, _⟩ |
      ⟨cid, cname, ctext, stats, _, _, _, hsp, heq⟩
    · exact heq
    · rw [hfull] at hsp; cases hsp

/-- C3 witness: the deploy-preservation part evaluated on a concrete state
that satisfies the invariant. -/
theorem zone_capacity_spec_witness :
    zoneInv (deploy_troop_from_hand 1 0 ZoneId.HQ gDemo).2 :=
  zone_capacity_spec.2.2.2.1 1 0 ZoneId.HQ gDemo (fun zid => by cases zid <;> decide)

/-- C4: the multiset of cards a player owns (deck plus hand plus discard)
is preserved by draw (for any permutation-producing shuffle), by the raw
draw applied through the game state, by start_phase, and by every deploy
attempt, successful or not — no card is duplicated or lost. -/
theorem card_partition_spec :
    (∀ sh, IsPerm sh → ∀ n p, ownedCards (draw sh n p) = ownedCards p) ∧
    (∀ sh, IsPerm sh → ∀ (n pid : Nat) (g : Game),
        ownedCards (g.setPlayer pid (draw sh n (g.player pid))).p1 = ownedCards g.p1 ∧
        ownedCards (g.setPlayer pid (draw sh n (g.player pid))).p2 = ownedCards g.p2) ∧
    (∀ sh, IsPerm sh → ∀ (pid : Nat) (g : Game),
        ownedCards (start_phase sh pid g).p1 = ownedCards g.p1 ∧
        ownedCards (start_phase sh pid g).p2 = ownedCards g.p2) ∧
    (∀ (pid : Nat) (i : Int) (tz : ZoneId) (g : Game),
        ownedCards (deploy_troop_from_hand pid i tz g).2.p1 = ownedCards g.p1 ∧
        ownedCards (deploy_troop_from_hand pid i tz g).2.p2 = ownedCards g.p2) := by
  refine ⟨fun sh hsh => draw_owned sh hsh, fun sh hsh n pid (g : Game) => ?_,
    start_phase_owned, deploy_owned⟩
  unfold Game.setPlayer Game.player
  split
  · exact ⟨draw_owned sh hsh n _, rfl⟩
  · exact ⟨rfl, draw_owned sh hsh n _⟩

/-- C4 witness: drawing three cards with the identity shuffle from a
one-card deck and one-card discard preserves the owned multiset. -/
theorem card_partition_spec_witness :
    ownedCards (draw id 3 { pid := 1, deck := [marines], discard := [booby] })
      = ownedCards { pid := 1, deck := [marines], discard := [booby] } :=
  card_partition_spec.1 id (fun l => List.Perm.refl l) 3
    { pid := 1, deck := [marines], discard := [booby] }

/-- C5: the resource grant at the start of a phase sets the acting player's
command points to the old value plus two, clamped at five, so the result
never exceeds five for any starting value (four becomes five, five stays
five). -/
theorem gainResources_spec (sh : List Card → List Card) (pid : Nat) (g : Game) :
    ((start_phase sh pid g).player pid).cp = min 5 ((g.player pid).cp + 2) ∧
    ((start_phase sh pid g).player pid).cp ≤ 5 := by
  rw [start_phase_player, (draw_scalar sh 1 _).2.2]
  exact ⟨rfl, min_le_left _ _⟩
/-- C6: the draw discipline.  With both deck and discard empty, drawing any
number of cards leaves the player state untouched and raises no error.
With an empty deck and non-empty discard, the reshuffle step turns the
discard (as a multiset) into the new deck, empties the discard, and the
iteration then pops the top of the reshuffled deck into the hand.  When the
deck ends in a card, one draw pops exactly that last card into the hand.
Drawing n cards appends at most n cards to the hand. -/
theorem draw_semantics_spec :
    (∀ sh, IsPerm sh → ∀ (n : Nat) (p : PlayerState),
        p.deck = [] → p.discard = [] → draw sh n p = p) ∧
    (∀ sh, IsPerm sh → ∀ p : PlayerState, p.deck = [] → p.discard ≠ [] →
        ((reshuffle sh p).deck : Multiset Card) = (p.discard : Multiset Card) ∧
        (reshuffle sh p).discard = [] ∧
        ∃ c, (sh p.discard).getLast? = some c ∧
          drawOnce sh p = { p with deck := (sh p.discard).dropLast,
                                   hand := p.hand ++ [c], discard := [] }) ∧
    (∀ sh (p : PlayerState) (l : List Card) (c : Card), p.deck = l ++ [c] →
        drawOnce sh p = { p with deck := l, hand := p.hand ++ [c] }) ∧
    (∀ sh (n : Nat) (p : PlayerState),
        ∃ d, (draw sh n p).hand = p.hand ++ d ∧ d.length ≤ n) := by
  refine ⟨?_, ?_, drawOnce_pop, ?_⟩
  · intro sh hsh n p hdeck hdisc
    induction n with
    | zero => rfl
    | succ n ih => rw [draw, drawOnce_empty sh hsh p hdeck hdisc]; exact ih
  · intro sh hsh p hdeck hdisc
    refine ⟨Multiset.coe_eq_coe.mpr (hsh _), rfl, ?_⟩
    have hne : sh p.discard ≠ [] := by
      intro hnil
      exact hdisc (List.Perm.eq_nil ((hsh p.discard).symm.trans (hnil ▸ List.Perm.refl _)))
    obtain ⟨c, hc⟩ : ∃ c, (sh p.discard).getLast? = some c := by
      cases hl : (sh p.discard).getLast? with
      | some c => exact ⟨c, rfl⟩
      | none => exact absurd (List.getLast?_eq_none_iff.mp hl) hne
    refine ⟨c, hc, ?_⟩
    unfold drawOnce reshuffle
    dsimp only
    rw [if_pos (by simp [hdeck])]
    dsimp only
    rw [hc]
  · intro sh n
    induction n with
    | zero => exact fun p => ⟨[], by simp [draw], by simp⟩
    | succ n ih =>
      intro p
      obtain ⟨d1, h1, hl1⟩ := drawOnce_hand sh p
      obtain ⟨d2, h2, hl2⟩ := ih (drawOnce sh p)
      refine ⟨d1 ++ d2, ?_, ?_⟩
      · rw [draw, h2, h1, List.append_assoc]
      · rw [List.length_append]; omega

/-- C6 witness: drawing four cards from a player with empty deck and empty
discard leaves the state unchanged. -/
theorem draw_semantics_spec_witness :
    draw id 4 { pid := 1 } = { pid := 1 } :=
  draw_semantics_spec.1 id (fun l => List.Perm.refl l) 4 { pid := 1 } rfl rfl

/-- C7: when the hand index is out of bounds (negative or too large), or
the referenced card is not a troop card, or the target zone has no free
capacity, deploy_troop_from_hand returns false and the whole game state —
in particular the hand, the discard and every zone's occupants — is
returned exactly unchanged. -/
theorem deploy_failure_spec (pid : Nat) (i : Int) (tz : ZoneId) (g : Game)
    (h : i < 0 ∨ ((g.player pid).hand.length : Int) ≤ i ∨
         (∀ c, (g.player pid).hand[i.toNat]? = some c → c.isTroop = false) ∨
         (g.zone tz).has_space = false) :
    deploy_troop_from_hand pid i tz g = (false, g) := by
  rcases deploy_eq_cases pid i tz g with ⟨heq, _⟩ |
    ⟨cid, cname, ctext, stats, h0, hlt, hsome, hsp, heq⟩
  · exact heq
  · exfalso
    rcases h with h | h | h | h
    · omega
    · omega
    · have := h _ hsome
      simp [Card.isTroop] at this
    · rw [h] at hsp
      cases hsp

/-- C7 witness: deploying from an empty hand fails and returns the state
unchanged. -/
theorem deploy_failure_spec_witness :
    deploy_troop_from_hand 1 0 ZoneId.HQ (deadState 25 25) = (false, deadState 25 25) :=
  deploy_failure_spec 1 0 ZoneId.HQ (deadState 25 25) (Or.inr (Or.inl (by decide)))

/-- C8: with a valid index onto a troop card and a target zone with space,
deploy_troop_from_hand succeeds, appends to the target zone exactly one new
unit owned by the player, placed in that zone, with cohesion equal to the
card's cohesion stat, ammunition equal to its max-ammo stat and a cleared
attacked flag; the card moves from the hand (removed at the index) to the
discard, so the hand shrinks by one and the discard grows by one. -/
theorem deploy_success_spec (pid : Nat) (i : Int) (tz : ZoneId) (g : Game)
    (cid cname ctext : String) (stats : TroopStats)
    (h0 : 0 ≤ i)
    (hc : (g.player pid).hand[i.toNat]? = some (.troop cid cname ctext stats))
    (hs : (g.zone tz).has_space = true) :
    (deploy_troop_from_hand pid i tz g).1 = true ∧
    ((deploy_troop_from_hand pid i tz g).2.zone tz).units
      = (g.zone tz).units ++
        [{ card := Card.troop cid cname ctext stats, owner := pid, zone := tz,
           coh := stats.coh, ammo := stats.max_ammo, attacked_this_turn := false }] ∧
    ((deploy_troop_from_hand pid i tz g).2.player pid).hand
      = (g.player pid).hand.eraseIdx i.toNat ∧
    ((deploy_troop_from_hand pid i tz g).2.player pid).discard
      = (g.player pid).discard ++ [Card.troop cid cname ctext stats] ∧
    ((deploy_troop_from_hand pid i tz g).2.player pid).hand.length + 1
      = (g.player pid).hand.length ∧
    ((deploy_troop_from_hand pid i tz g).2.player pid).discard.length
      = (g.player pid).discard.length + 1 := by
  have hbound : i.toNat < (g.player pid).hand.length := (List.getElem?_eq_some_iff.mp hc).1
  rcases deploy_eq_cases pid i tz g with ⟨heq, hfail⟩ |
    ⟨cid', cname', ctext', stats', h0', hlt', hsome', hsp', heq⟩
  · exfalso
    rcases hfail with h | h | h | h
    · omega
    · omega
    · have := h _ hc
      simp [Card.isTroop] at this
    · rw [hs] at h
      cases h
  · rw [hc] at hsome'
    injection hsome' with hsome'
    injection hsome' with e1 e2 e3 e4
    subst e1; subst e2; subst e3; subst e4
    rw [heq]
    dsimp only
    rw [show (Game.zone { g.setPlayer pid
             { g.player pid with
               discard := (g.player pid).discard ++ [Card.troop cid cname ctext stats],
               hand := (g.player pid).hand.eraseIdx i.toNat } with
           zones := g.zones.set tz
             { g.zone tz with
               units := (g.zone tz).units ++
                 [{ card := Card.troop cid cname ctext stats, owner := pid, zone := tz,
                    coh := stats.coh, ammo := stats.max_ammo,
                    attacked_this_turn := false }] } } tz)
        = { g.zone tz with
            units := (g.zone tz).units ++
              [{ card := Card.troop cid cname ctext stats, owner := pid, zone := tz,
                 coh := stats.coh, ammo := stats.max_ammo,
                 attacked_this_turn := false }] } from get_set_self (g.zones) tz _]
    rw [player_zones_update, player_setPlayer]
    refine ⟨rfl, rfl, rfl, rfl, ?_, ?_⟩
    · exact List.length_eraseIdx_add_one hbound
    · simp

/-- C8 witness: deploying the single troop card of a concrete hand into the
empty HQ zone succeeds and empties the hand. -/
theorem deploy_success_spec_witness :
    (deploy_troop_from_hand 1 0 ZoneId.HQ gDemo).1 = true ∧
    ((deploy_troop_from_hand 1 0 ZoneId.HQ gDemo).2.player 1).hand.length + 1 = 1 :=
  ⟨(deploy_success_spec 1 0 ZoneId.HQ gDemo "troop_marines" "Tactical Marines"
      "+1 STR if another Infantry is in zone (not implemented yet)."
      { str := 6, arm := 4, coh := 6, speed := 1, max_ammo := 0 }
      (by decide) rfl rfl).1,
   (deploy_success_spec 1 0 ZoneId.HQ gDemo "troop_marines" "Tactical Marines"
      "+1 STR if another Infantry is in zone (not implemented yet)."
      { str := 6, arm := 4, coh := 6, speed := 1, max_ammo := 0 }
      (by decide) rfl rfl).2.2.2.2.1⟩

/-- C9: ending a turn toggles the active player between 1 and 2 and bumps
the turn counter exactly when control returns to player 1; in particular a
fresh game starts at turn 1 with player 1 active, after one end-of-turn the
active player is 2 and the turn is still 1, and after a second end-of-turn
the active player is 1 again and the turn is 2. -/
theorem turn_swap_spec :
    (∀ g : Game, g.active_pid = 1 →
        (endTurn g).active_pid = 2 ∧ (endTurn g).turn = g.turn) ∧
    (∀ g : Game, g.active_pid = 2 →
        (endTurn g).active_pid = 1 ∧ (endTurn g).turn = g.turn + 1) ∧
    (∀ sh1 sh2 : List Card → List Card,
        (Game.init sh1 sh2).active_pid = 1 ∧ (Game.init sh1 sh2).turn = 1 ∧
        (endTurn (Game.init sh1 sh2)).active_pid = 2 ∧
        (endTurn (Game.init sh1 sh2)).turn = 1 ∧
        (endTurn (endTurn (Game.init sh1 sh2))).active_pid = 1 ∧
        (endTurn (endTurn (Game.init sh1 sh2))).turn = 2) := by
  refine ⟨endTurn_active1, endTurn_active2, fun sh1 sh2 => ?_⟩
  obtain ⟨ha, ht⟩ := init_active sh1 sh2
  obtain ⟨ha1, ht1⟩ := endTurn_active1 _ ha
  obtain ⟨ha2, ht2⟩ := endTurn_active2 _ ha1
  exact ⟨ha, ht, ha1, ht1.trans ht, ha2, by rw [ht2, ht1, ht]⟩

/-- C9 witness: one end-of-turn from a concrete player-1 state hands
control to player 2. -/
theorem turn_swap_spec_witness :
    (deadState 25 25).active_pid = 1 ∧ (endTurn (deadState 25 25)).active_pid = 2 :=
  ⟨by decide, (turn_swap_spec.1 (deadState 25 25) (by decide)).1⟩

/-- C10: no engine operation changes either player's morale, morale starts
at 25, and therefore every state reachable from a fresh game still has both
morales at 25 and game_over reports no winner — the match cannot end. -/
theorem morale_never_zero_spec :
    (∀ g g' : Game, Step g g' →
        g'.p1.morale = g.p1.morale ∧ g'.p2.morale = g.p2.morale) ∧
    (∀ sh1 sh2 (g : Game), Reachable (Game.init sh1 sh2) g →
        g.p1.morale = 25 ∧ g.p2.morale = 25 ∧ game_over g = none) := by
  refine ⟨fun g g' h => step_morale g g' h, fun sh1 sh2 g h => ?_⟩
  have hm : g.p1.morale = 25 ∧ g.p2.morale = 25 := by
    induction h with
    | refl => exact init_morale sh1 sh2
    | tail hr hs ih =>
      have := step_morale _ _ hs
      exact ⟨this.1.trans ih.1, this.2.trans ih.2⟩
  refine ⟨hm.1, hm.2, ?_⟩
  unfold game_over
  rw [hm.1, hm.2]
  norm_num

/-- C10 witness: the end-of-turn step preserves the morales of a concrete
state, and the freshly constructed game has no winner. -/
theorem morale_never_zero_spec_witness :
    ((endTurn (deadState 25 25)).p1.morale = (deadState 25 25).p1.morale ∧
     (endTurn (deadState 25 25)).p2.morale = (deadState 25 25).p2.morale) ∧
    game_over (Game.init id id) = none :=
  ⟨morale_never_zero_spec.1 (deadState 25 25) (endTurn (deadState 25 25))
     (Step.swap (deadState 25 25)),
   (morale_never_zero_spec.2 id id (Game.init id id) Relation.ReflTransGen.refl).2.2⟩
end Clash
